import Mathlib

/-!
Verification of the gene-panel version-management subsystem of the `scout`
repository (files `scout/adapter/mongo/panel.py` and `scout/parse/panel.py`).

Python dicts representing gene records are embedded as structures whose
fields of type `Option _` model presence or absence of the corresponding
dictionary key (`none` = key absent).  Python's truthiness tests
(`if info.get(field):`) are modelled explicitly: a list is truthy iff it is
nonempty, a string iff it is nonempty, a boolean iff it is `true`, and a
missing value (`None`) is falsy.
-/

/-- A gene record as stored in a panel's `genes` list.  Each field models
one dictionary key; `none` means the key is absent.  The parser always
stores the keys `hgnc_symbol`, `transcripts`, `inheritance_models`,
`mosaicism`, `reduced_penetrance` and `database_entry_version`, while the
records synthesized by `apply_pending` for a pending `add` carry the keys
`hgnc_id`, `symbol` and whichever optional fields were truthy in `info`.
For `hgnc_id` and the string-valued keys whose stored value may itself be
Python `None`, the inner `Option` models that value. -/
structure Gene where
  hgnc_id : Option Int := none
  symbol : Option String := none
  hgnc_symbol : Option (Option String) := none
  transcripts : Option (List String) := none
  disease_associated_transcripts : Option (List String) := none
  inheritance_models : Option (List String) := none
  reduced_penetrance : Option Bool := none
  mosaicism : Option Bool := none
  database_entry_version : Option (Option String) := none
  deriving DecidableEq, Repr

/-- The `info` dictionary of a pending change: partial field overrides.
`none` means the key is absent from `info`. -/
structure Info where
  disease_associated_transcripts : Option (List String) := none
  inheritance_models : Option (List String) := none
  reduced_penetrance : Option Bool := none
  mosaicism : Option Bool := none
  database_entry_version : Option String := none
  deriving DecidableEq, Repr

/-- A pending change as produced by `add_pending`:
`{'hgnc_id': ..., 'action': ..., 'info': ..., 'symbol': ...}`.
The action is kept as a raw string, as in the source. -/
structure PendingChange where
  hgnc_id : Int
  action : String
  info : Info
  symbol : String
  deriving DecidableEq, Repr

/-- A gene-panel version document.  The Mongo `_id` is not modelled (it is
popped before the new version is stored); `date` is modelled as an abstract
timestamp (`Nat`).  `is_archived := false` models both an absent key and a
stored `false`. -/
structure Panel where
  panel_name : String
  institute : String
  panel_type : String
  display_name : String
  version : ℚ
  date : Nat
  genes : List Gene
  pending : List PendingChange
  is_archived : Bool := false
  deriving DecidableEq, Repr

/-- `update_panel` (panel.py): replaces a stored panel, first setting its
`date` to the current time.  The document-store replace is modelled by
returning the replacing value. -/
def update_panel (now : Nat) (panel_obj : Panel) : Panel :=
  { panel_obj with date := now }

/-- The `hgnc_gene` argument of `add_pending`: a gene document from the
hgnc collection, of which only `hgnc_id` and `hgnc_symbol` are read. -/
structure HgncGene where
  hgnc_id : Int
  hgnc_symbol : String
  deriving DecidableEq, Repr

/-- `add_pending` (panel.py): validates the action, then appends one
pending-change document to the panel's `pending` array (the Mongo `$push`
with `ReturnDocument.AFTER` is modelled by returning the updated panel).
An invalid action raises `ValueError`, modelled as `Except.error`; in that
case nothing is written. -/
def add_pending (panel_obj : Panel) (hgnc_gene : HgncGene) (action : String)
    (info : Option Info) : Except String Panel :=
  if action ∈ ["add", "delete", "edit"] then
    let info := info.getD {}
    let pending_action : PendingChange :=
      { hgnc_id := hgnc_gene.hgnc_id
        action := action
        info := info
        symbol := hgnc_gene.hgnc_symbol }
    Except.ok { panel_obj with pending := panel_obj.pending ++ [pending_action] }
  else
    Except.error ("Invalid action " ++ action)

/-- The common conditional-field block of `apply_pending`: for each of the
five optional fields, `if info.get(field): gene[field] = info[field]` —
the assignment happens only when the value is present **and truthy**
(nonempty list, `True`, nonempty string). It is used both to build the
gene object of a pending `add` and to apply a pending `edit` to an
existing record (the two blocks in the source are identical). -/
def applyInfoFields (gene : Gene) (info : Info) : Gene :=
  let gene :=
    match info.disease_associated_transcripts with
    | some l => if l ≠ [] then { gene with disease_associated_transcripts := some l } else gene
    | none => gene
  let gene :=
    match info.inheritance_models with
    | some l => if l ≠ [] then { gene with inheritance_models := some l } else gene
    | none => gene
  let gene :=
    match info.reduced_penetrance with
    | some b => if b then { gene with reduced_penetrance := some b } else gene
    | none => gene
  let gene :=
    match info.mosaicism with
    | some b => if b then { gene with mosaicism := some b } else gene
    | none => gene
  let gene :=
    match info.database_entry_version with
    | some s => if s ≠ "" then { gene with database_entry_version := some (some s) } else gene
    | none => gene
  gene

/-- The gene object synthesized for a pending `add`:
`{'hgnc_id': ..., 'symbol': update['symbol']}` plus the truthy `info`
fields. -/
def addGeneObj (update : PendingChange) : Gene :=
  applyInfoFields { hgnc_id := some update.hgnc_id, symbol := some update.symbol } update.info

/-- The `updates` dictionary of `apply_pending`, modelled as a lookup
function from hgnc ids. -/
def emptyUpdates : Int → Option PendingChange := fun _ => none

/-- `updates[hgnc_id] = update` (dictionary insertion with overwrite). -/
def insertUpdate (updates : Int → Option PendingChange) (update : PendingChange) :
    Int → Option PendingChange :=
  fun k => if k = update.hgnc_id then some update else updates k

/-- One iteration of the first loop of `apply_pending`
(`for update in panel_obj.get('pending', [])`): an `add` appends a fresh
gene object to `new_genes`; any other action is stored in the `updates`
dictionary keyed by `hgnc_id` (later entries overwrite earlier ones). -/
def pendingStep (acc : List Gene × (Int → Option PendingChange)) (update : PendingChange) :
    List Gene × (Int → Option PendingChange) :=
  if update.action = "add" then
    (acc.1 ++ [addGeneObj update], acc.2)
  else
    (acc.1, insertUpdate acc.2 update)

/-- One iteration of the second loop of `apply_pending`
(`for gene in panel_obj['genes']`).  The accumulator carries `new_genes`
together with the state of the base panel's gene records after the
iteration: the source mutates the record in place for an `edit`, so the
edited record (the *same* object) is both appended to `new_genes` and left
in the base list.  A `delete` appends nothing; an action that is neither
`delete` nor `edit` falls through the `if`/`elif` and also appends
nothing.  A gene whose `hgnc_id` is Python `None` never matches a key of
the `updates` dictionary and is carried forward unchanged. -/
def geneStep (updates : Int → Option PendingChange) (acc : List Gene × List Gene)
    (gene : Gene) : List Gene × List Gene :=
  match gene.hgnc_id.bind updates with
  | some current_update =>
      if current_update.action = "delete" then
        (acc.1, acc.2 ++ [gene])
      else if current_update.action = "edit" then
        let gene := applyInfoFields gene current_update.info
        (acc.1 ++ [gene], acc.2 ++ [gene])
      else
        (acc.1, acc.2 ++ [gene])
  | none => (acc.1 ++ [gene], acc.2 ++ [gene])

/-- `apply_pending` (panel.py).  `now` is the merge timestamp
(`dt.datetime.now()` taken when the new version is built) and `now2` the
timestamp taken inside `update_panel` when the base version is archived.
The result is the pair `(new_panel, base_after)`: the returned new version
and the state of the caller's `panel_obj` after the call — the source
mutates `panel_obj` (in-place gene edits during the second loop, then
`panel_obj['is_archived'] = True`) and persists that mutated document via
`update_panel`. The popped `_id` is not modelled. -/
def apply_pending (now now2 : Nat) (panel_obj : Panel) : Panel × Panel :=
  let pendingResult := panel_obj.pending.foldl pendingStep ([], emptyUpdates)
  let geneResult := panel_obj.genes.foldl (geneStep pendingResult.2) (pendingResult.1, [])
  let new_panel : Panel :=
    { panel_obj with
        pending := []
        date := now
        genes := geneResult.1
        version := panel_obj.version + 1 }
  let base_after := update_panel now2 { panel_obj with genes := geneResult.2, is_archived := true }
  (new_panel, base_after)

/-- `clinical_symbols` (panel.py): the aggregation unwinds `genes` and
groups by `$genes.symbol`, producing the set of distinct values of the
`symbol` key across the given panels' gene lists; a gene record without a
`symbol` key contributes the null group key (`none`). -/
def clinical_symbols (panels : List Panel) : List (Option String) :=
  ((panels.flatMap fun panel => panel.genes).map fun gene => gene.symbol).dedup

/-!
## Declarative characterizations

The following definitions restate, in the declarative style of the
specification, what the two imperative loops of `apply_pending` compute.
They are related to the loops by the lemmas below and give the claims a
readable formulation.
-/

/-- The genes synthesized from the pending `add` entries, in proposal
order. -/
def addedGenes (pending : List PendingChange) : List Gene :=
  pending.filterMap fun update =>
    if update.action = "add" then some (addGeneObj update) else none

/-- The entry of the `updates` dictionary for key `k` after processing the
whole pending queue: the **last** entry in proposal order whose action is
not `add` and whose `hgnc_id` is `k` (later insertions overwrite earlier
ones). -/
def lastUpdate : List PendingChange → Int → Option PendingChange
  | [], _ => none
  | update :: rest, k =>
      match lastUpdate rest k with
      | some u => some u
      | none =>
          if update.action ≠ "add" ∧ update.hgnc_id = k then some update else none

/-- What the second loop of `apply_pending` contributes to the new gene
list for one base gene: carried unchanged when no delete/edit entry
targets it, dropped on `delete` (or on an unrecognized non-`add` action),
carried with the `info` overrides applied on `edit`. -/
def carryFn (updates : Int → Option PendingChange) (gene : Gene) : Option Gene :=
  match gene.hgnc_id.bind updates with
  | some u =>
      if u.action = "delete" then none
      else if u.action = "edit" then some (applyInfoFields gene u.info)
      else none
  | none => some gene

/-- The state of one base gene record after the second loop of
`apply_pending`: it is mutated in place by an `edit`, untouched
otherwise. -/
def baseFn (updates : Int → Option PendingChange) (gene : Gene) : Gene :=
  match gene.hgnc_id.bind updates with
  | some u => if u.action = "edit" then applyInfoFields gene u.info else gene
  | none => gene

theorem lastUpdate_cons_add {u : PendingChange} (rest : List PendingChange) (k : Int)
    (hu : u.action = "add") : lastUpdate (u :: rest) k = lastUpdate rest k := by
  simp only [lastUpdate]
  cases lastUpdate rest k with
  | some v => rfl
  | none => simp [hu]

theorem foldl_pendingStep_fst (pending : List PendingChange)
    (gs : List Gene) (f : Int → Option PendingChange) :
    (pending.foldl pendingStep (gs, f)).1 = gs ++ addedGenes pending := by
  induction pending generalizing gs f with
  | nil => simp [addedGenes]
  | cons u rest ih =>
      by_cases hu : u.action = "add"
      · simp only [List.foldl_cons, pendingStep, hu, if_pos]
        rw [ih]
        simp [addedGenes, hu]
      · simp only [List.foldl_cons, pendingStep, hu, if_false, if_neg]
        rw [ih]
        simp [addedGenes, hu]

theorem foldl_pendingStep_snd (pending : List PendingChange)
    (gs : List Gene) (f : Int → Option PendingChange) (k : Int) :
    (pending.foldl pendingStep (gs, f)).2 k =
      match lastUpdate pending k with
      | some u => some u
      | none => f k := by
  induction pending generalizing gs f with
  | nil => simp [lastUpdate]
  | cons u rest ih =>
      by_cases hu : u.action = "add"
      · simp only [List.foldl_cons, pendingStep, hu, if_pos]
        rw [ih, lastUpdate_cons_add rest k hu]
      · simp only [List.foldl_cons, pendingStep, hu, if_false, if_neg]
        rw [ih]
        simp only [lastUpdate]
        cases hrest : lastUpdate rest k with
        | some v => rfl
        | none =>
            simp only [insertUpdate]
            by_cases hk : u.hgnc_id = k
            · simp [hu, hk]
            · have hk' : ¬ k = u.hgnc_id := fun h => hk h.symm
              simp [hu, hk, hk']

theorem foldl_geneStep_fst (genes : List Gene) (updates : Int → Option PendingChange)
    (gs bs : List Gene) :
    (genes.foldl (geneStep updates) (gs, bs)).1 = gs ++ genes.filterMap (carryFn updates) := by
  induction genes generalizing gs bs with
  | nil => simp
  | cons g rest ih =>
      simp only [List.foldl_cons, List.filterMap_cons]
      cases hg : g.hgnc_id.bind updates with
      | none =>
          simp only [geneStep, hg, carryFn, ih]
          try simp
      | some u =>
          by_cases hdel : u.action = "delete"
          · simp only [geneStep, hg, hdel, if_pos, carryFn, ih]
            try simp
          · by_cases hedit : u.action = "edit"
            · simp only [geneStep, hg, hdel, hedit, if_false, if_neg, if_pos, carryFn, ih]
              try simp
            · simp only [geneStep, hg, hdel, hedit, if_false, if_neg, carryFn, ih]
              try simp

theorem foldl_geneStep_snd (genes : List Gene) (updates : Int → Option PendingChange)
    (gs bs : List Gene) :
    (genes.foldl (geneStep updates) (gs, bs)).2 = bs ++ genes.map (baseFn updates) := by
  induction genes generalizing gs bs with
  | nil => simp
  | cons g rest ih =>
      simp only [List.foldl_cons, List.map_cons]
      cases hg : g.hgnc_id.bind updates with
      | none =>
          simp only [geneStep, hg, baseFn, ih]
          try simp
      | some u =>
          by_cases hdel : u.action = "delete"
          · have hedit : ¬ u.action = "edit" := by
              rw [hdel]; decide
            simp only [geneStep, hg, hdel, hedit, if_pos, if_false, if_neg, baseFn, ih]
            try simp
          · by_cases hedit : u.action = "edit"
            · simp only [geneStep, hg, hdel, hedit, if_false, if_neg, if_pos, baseFn, ih]
              try simp
            · simp only [geneStep, hg, hdel, hedit, if_false, if_neg, baseFn, ih]
              try simp

/-- The `updates` lookup function produced by the first loop equals
`lastUpdate` of the pending queue. -/
theorem foldl_pendingStep_snd_eq (pending : List PendingChange) (gs : List Gene) :
    (pending.foldl pendingStep (gs, emptyUpdates)).2 = lastUpdate pending := by
  funext k
  rw [foldl_pendingStep_snd]
  cases lastUpdate pending k with
  | some u => rfl
  | none => rfl

/-- Full characterization of `apply_pending`: the returned new version and
the state of the mutated base document, both expressed declaratively. -/
theorem apply_pending_eq (now now2 : Nat) (p : Panel) :
    apply_pending now now2 p =
      ({ p with
           pending := []
           date := now
           genes := addedGenes p.pending ++ p.genes.filterMap (carryFn (lastUpdate p.pending))
           version := p.version + 1 },
       { p with
           genes := p.genes.map (baseFn (lastUpdate p.pending))
           is_archived := true
           date := now2 }) := by
  simp only [apply_pending, update_panel]
  rw [foldl_pendingStep_snd_eq]
  rw [foldl_geneStep_fst, foldl_geneStep_snd, foldl_pendingStep_fst]
  simp

theorem lastUpdate_mem {l : List PendingChange} {k : Int} {u : PendingChange}
    (h : lastUpdate l k = some u) : u ∈ l ∧ u.action ≠ "add" ∧ u.hgnc_id = k := by
  induction l with
  | nil => simp [lastUpdate] at h
  | cons v rest ih =>
      simp only [lastUpdate] at h
      cases hr : lastUpdate rest k with
      | some w =>
          rw [hr] at h
          cases h
          obtain ⟨m, hna, hid⟩ := ih hr
          exact ⟨List.mem_cons_of_mem _ m, hna, hid⟩
      | none =>
          rw [hr] at h
          by_cases hc : v.action ≠ "add" ∧ v.hgnc_id = k
          · rw [if_pos hc] at h
            cases h
            exact ⟨List.mem_cons_self _ _, hc.1, hc.2⟩
          · rw [if_neg hc] at h
            cases h

theorem lastUpdate_append (l1 l2 : List PendingChange) (k : Int) :
    lastUpdate (l1 ++ l2) k =
      match lastUpdate l2 k with
      | some v => some v
      | none => lastUpdate l1 k := by
  induction l1 with
  | nil =>
      simp only [List.nil_append]
      cases lastUpdate l2 k <;> rfl
  | cons v rest ih =>
      rw [List.cons_append]
      simp only [lastUpdate]
      rw [ih]
      cases lastUpdate l2 k with
      | some w => rfl
      | none => rfl

theorem lastUpdate_isSome_of_exists {l : List PendingChange} {k : Int}
    (h : ∃ u ∈ l, u.action ≠ "add" ∧ u.hgnc_id = k) : ∃ w, lastUpdate l k = some w := by
  induction l with
  | nil => simp at h
  | cons v rest ih =>
      simp only [lastUpdate]
      cases hr : lastUpdate rest k with
      | some w => exact ⟨w, rfl⟩
      | none =>
          obtain ⟨u, hu, hcond⟩ := h
          rcases List.mem_cons.1 hu with huv | hurest
          · subst huv
            exact ⟨u, by rw [if_pos hcond]⟩
          · obtain ⟨w, hw⟩ := ih ⟨u, hurest, hcond⟩
            rw [hw] at hr
            cases hr

theorem addedGenes_append (l1 l2 : List PendingChange) :
    addedGenes (l1 ++ l2) = addedGenes l1 ++ addedGenes l2 := by
  simp [addedGenes]

theorem carryFn_lastUpdate_nil (gene : Gene) : carryFn (lastUpdate []) gene = some gene := by
  unfold carryFn
  cases gene.hgnc_id with
  | none => rfl
  | some i => rfl

theorem baseFn_lastUpdate_nil (gene : Gene) : baseFn (lastUpdate []) gene = gene := by
  unfold baseFn
  cases gene.hgnc_id with
  | none => rfl
  | some i => rfl

theorem map_eq_self_of_point {f : Gene → Gene} (h : ∀ g, f g = g) (l : List Gene) :
    l.map f = l := by
  induction l with
  | nil => rfl
  | cons a t ih => simp [h, ih]

theorem filterMap_eq_self_of_point {f : Gene → Option Gene} (h : ∀ g, f g = some g)
    (l : List Gene) : l.filterMap f = l := by
  induction l with
  | nil => rfl
  | cons a t ih => simp [List.filterMap_cons, h, ih]

/-!
## Claim C1 — position of added genes
-/

def c1Gene1 : Gene := { hgnc_id := some 1, hgnc_symbol := some (some "A") }

def c1Gene2 : Gene := { hgnc_id := some 2, hgnc_symbol := some (some "B") }

def c1Add : PendingChange := { hgnc_id := 3, action := "add", info := {}, symbol := "C" }

def c1Del : PendingChange := { hgnc_id := 2, action := "delete", info := {}, symbol := "B" }

def c1Panel : Panel :=
  { panel_name := "panel1", institute := "cust000", panel_type := "clinical",
    display_name := "Panel 1", version := 1, date := 0,
    genes := [c1Gene1, c1Gene2], pending := [c1Add, c1Del] }

/-- C1 counterexample: on the specification's own Scenario B — base genes
`[{id 1}, {id 2}]`, pending `[add id 3, delete id 2]` — the new version's
gene list is `[added id 3, carried id 1]`, not the claimed
`[carried id 1, added id 3]`: added genes are **not** appended after the
carried-forward existing genes. -/
theorem claim_C1_counterexample :
    (apply_pending 1 2 c1Panel).1.genes ≠ [c1Gene1, addGeneObj c1Add] ∧
    (apply_pending 1 2 c1Panel).1.genes = [addGeneObj c1Add, c1Gene1] := by
  exact ⟨by decide, by decide⟩

/-- C1 (amended): for every panel version and pending queue, the gene
list of the new version produced by `apply_pending` is the newly added
genes in pending-proposal order **followed by** the edited/unchanged
existing genes in the base version's original order — added genes form a
prefix block, never interleaved with the carried-forward genes. -/
theorem claim_C1 (now now2 : Nat) (p : Panel) :
    (apply_pending now now2 p).1.genes =
      addedGenes p.pending ++ p.genes.filterMap (carryFn (lastUpdate p.pending)) := by
  rw [apply_pending_eq]

/-!
## Claim C2 — mutation of the base version's gene records
-/

def c2Gene : Gene := { hgnc_id := some 1, hgnc_symbol := some (some "A"), mosaicism := some false }

def c2Edit : PendingChange :=
  { hgnc_id := 1, action := "edit", info := { mosaicism := some true }, symbol := "A" }

def c2Panel : Panel :=
  { panel_name := "panel1", institute := "cust000", panel_type := "clinical",
    display_name := "Panel 1", version := 1, date := 0,
    genes := [c2Gene], pending := [c2Edit] }

/-- C2 counterexample: a pending `edit` writes its truthy `info` fields
into the base version's gene record **in place** — after the call the
input panel's gene list has changed (`mosaicism` flipped to `true`), so
`apply_pending` does not leave the base version's gene records intact. -/
theorem claim_C2_counterexample :
    (apply_pending 0 0 c2Panel).2.genes ≠ c2Panel.genes ∧
    (apply_pending 0 0 c2Panel).2.genes = [{ c2Gene with mosaicism := some true }] := by
  exact ⟨by decide, by decide⟩

/-- C2 (amended): after `apply_pending`, the base version's gene records
are exactly the original records with every effective pending `edit`
applied in place (`baseFn`); in particular the base gene list is unchanged
whenever no pending entry has action `edit` — adds and deletes never
mutate base records, but an effective edit does (the carried-forward
record in the new version is the same mutated record). -/
theorem claim_C2 (now now2 : Nat) (p : Panel) :
    (apply_pending now now2 p).2.genes = p.genes.map (baseFn (lastUpdate p.pending)) ∧
    ((∀ u ∈ p.pending, u.action ≠ "edit") → (apply_pending now now2 p).2.genes = p.genes) := by
  have h1 : (apply_pending now now2 p).2.genes = p.genes.map (baseFn (lastUpdate p.pending)) := by
    rw [apply_pending_eq]
  refine ⟨h1, fun hno => ?_⟩
  rw [h1]
  apply map_eq_self_of_point
  intro g
  unfold baseFn
  cases hg : g.hgnc_id.bind (lastUpdate p.pending) with
  | none => rfl
  | some u =>
      obtain ⟨i, hi, hli⟩ := Option.bind_eq_some.1 hg
      obtain ⟨hmem, _, _⟩ := lastUpdate_mem hli
      have : ¬ u.action = "edit" := hno u hmem
      simp [this]

def c2wDel : PendingChange := { hgnc_id := 1, action := "delete", info := {}, symbol := "A" }

def c2wPanel : Panel :=
  { panel_name := "panel1", institute := "cust000", panel_type := "clinical",
    display_name := "Panel 1", version := 1, date := 0,
    genes := [c2Gene], pending := [c2wDel] }

theorem claim_C2_witness :
    (apply_pending 0 0 c2wPanel).2.genes = c2wPanel.genes :=
  (claim_C2 0 0 c2wPanel).2 (by decide)

/-!
## Claim C3 — last-write-wins for delete/edit entries
-/

/-- C3: a delete/edit pending entry that is followed, later in proposal
order, by another delete/edit entry for the same `hgnc_id` has no
influence on the new version's gene list: removing it leaves the result
unchanged (last-write-wins by proposal order, via dictionary-key
overwrite). -/
theorem claim_C3 (now now2 : Nat) (p : Panel) (l1 l2 : List PendingChange) (u : PendingChange)
    (hu : u.action = "delete" ∨ u.action = "edit")
    (hlater : ∃ w ∈ l2, (w.action = "delete" ∨ w.action = "edit") ∧ w.hgnc_id = u.hgnc_id) :
    (apply_pending now now2 { p with pending := l1 ++ u :: l2 }).1.genes =
      (apply_pending now now2 { p with pending := l1 ++ l2 }).1.genes := by
  have hna : ¬ u.action = "add" := by
    rcases hu with h | h <;> rw [h] <;> decide
  have hlater' : ∃ w ∈ l2, w.action ≠ "add" ∧ w.hgnc_id = u.hgnc_id := by
    obtain ⟨w, hw, hact, hid⟩ := hlater
    refine ⟨w, hw, ?_, hid⟩
    rcases hact with h | h <;> rw [h] <;> decide
  have hfun : lastUpdate (l1 ++ u :: l2) = lastUpdate (l1 ++ l2) := by
    funext k
    rw [lastUpdate_append, lastUpdate_append]
    by_cases hk : k = u.hgnc_id
    · obtain ⟨w, hw⟩ := lastUpdate_isSome_of_exists hlater'
      have h2 : lastUpdate (u :: l2) u.hgnc_id = some w := by
        simp only [lastUpdate, hw]
      rw [hk, h2, hw]
    · have : lastUpdate (u :: l2) k = lastUpdate l2 k := by
        simp only [lastUpdate]
        cases lastUpdate l2 k with
        | some w => rfl
        | none =>
            have : ¬ (u.action ≠ "add" ∧ u.hgnc_id = k) := by
              rintro ⟨-, hid⟩
              exact hk (hid.symm)
            rw [if_neg this]
      rw [this]
  rw [apply_pending_eq, apply_pending_eq]
  simp only [hfun, addedGenes_append]
  have : addedGenes (u :: l2) = addedGenes l2 := by
    simp [addedGenes, hna]
  rw [this]

def c3Gene : Gene := { hgnc_id := some 1, hgnc_symbol := some (some "A") }

def c3Panel : Panel :=
  { panel_name := "panel1", institute := "cust000", panel_type := "clinical",
    display_name := "Panel 1", version := 1, date := 0,
    genes := [c3Gene], pending := [] }

def c3Del : PendingChange := { hgnc_id := 1, action := "delete", info := {}, symbol := "A" }

def c3Edit : PendingChange :=
  { hgnc_id := 1, action := "edit", info := { mosaicism := some true }, symbol := "A" }

theorem claim_C3_witness :
    (apply_pending 0 0 { c3Panel with pending := [] ++ c3Del :: [c3Edit] }).1.genes =
      (apply_pending 0 0 { c3Panel with pending := [] ++ [c3Edit] }).1.genes :=
  claim_C3 0 0 c3Panel [] [c3Edit] c3Del (by decide) (by decide)

/-!
## Claim C4 — which `info` fields take effect
-/

def c4Gene : Gene := { hgnc_id := some 1, hgnc_symbol := some (some "A"), mosaicism := some true }

def c4Edit : PendingChange :=
  { hgnc_id := 1, action := "edit", info := { mosaicism := some false }, symbol := "A" }

def c4Panel : Panel :=
  { panel_name := "panel1", institute := "cust000", panel_type := "clinical",
    display_name := "Panel 1", version := 1, date := 0,
    genes := [c4Gene], pending := [c4Edit] }

/-- C4 counterexample: an `edit` whose `info` contains `mosaicism: False`
— a field **present** in `info` with a falsy value — does not take
effect: the gene keeps `mosaicism = true`, because the source guards every
assignment with a truthiness test (`if info.get(field):`), not a presence
test. -/
theorem claim_C4_counterexample :
    (apply_pending 0 0 c4Panel).1.genes = [c4Gene] ∧
    (apply_pending 0 0 c4Panel).1.genes ≠ [{ c4Gene with mosaicism := some false }] := by
  exact ⟨by decide, by decide⟩

theorem applyInfoFields_eq (g : Gene) (i : Info) :
    applyInfoFields g i =
      { g with
          disease_associated_transcripts :=
            match i.disease_associated_transcripts with
            | some l => if l ≠ [] then some l else g.disease_associated_transcripts
            | none => g.disease_associated_transcripts
          inheritance_models :=
            match i.inheritance_models with
            | some l => if l ≠ [] then some l else g.inheritance_models
            | none => g.inheritance_models
          reduced_penetrance :=
            match i.reduced_penetrance with
            | some b => if b then some b else g.reduced_penetrance
            | none => g.reduced_penetrance
          mosaicism :=
            match i.mosaicism with
            | some b => if b then some b else g.mosaicism
            | none => g.mosaicism
          database_entry_version :=
            match i.database_entry_version with
            | some s => if s ≠ "" then some (some s) else g.database_entry_version
            | none => g.database_entry_version } := by
  obtain ⟨dat, im, rp, mos, dev⟩ := i
  cases dat <;> cases im <;> cases rp <;> cases mos <;> cases dev <;>
    simp only [applyInfoFields] <;> split_ifs <;> rfl

/-- C4 (amended): for every pending `edit` or `add`, exactly the optional
fields present in `info` **with a truthy value** (nonempty list, `True`,
nonempty string) take effect; a field absent from `info` — or present
with a falsy value such as `False` or an empty list/string — is left at
the existing value (edit) or omitted from the synthesized record (add).
The first equation fully describes the edit overlay, the second the gene
record built for an `add`. -/
theorem claim_C4 (gene : Gene) (info : Info) (u : PendingChange) :
    applyInfoFields gene info =
      { gene with
          disease_associated_transcripts :=
            match info.disease_associated_transcripts with
            | some l => if l ≠ [] then some l else gene.disease_associated_transcripts
            | none => gene.disease_associated_transcripts
          inheritance_models :=
            match info.inheritance_models with
            | some l => if l ≠ [] then some l else gene.inheritance_models
            | none => gene.inheritance_models
          reduced_penetrance :=
            match info.reduced_penetrance with
            | some b => if b then some b else gene.reduced_penetrance
            | none => gene.reduced_penetrance
          mosaicism :=
            match info.mosaicism with
            | some b => if b then some b else gene.mosaicism
            | none => gene.mosaicism
          database_entry_version :=
            match info.database_entry_version with
            | some s => if s ≠ "" then some (some s) else gene.database_entry_version
            | none => gene.database_entry_version } ∧
    addGeneObj u =
      { hgnc_id := some u.hgnc_id
        symbol := some u.symbol
        hgnc_symbol := none
        transcripts := none
        disease_associated_transcripts :=
          match u.info.disease_associated_transcripts with
          | some l => if l ≠ [] then some l else none
          | none => none
        inheritance_models :=
          match u.info.inheritance_models with
          | some l => if l ≠ [] then some l else none
          | none => none
        reduced_penetrance :=
          match u.info.reduced_penetrance with
          | some b => if b then some b else none
          | none => none
        mosaicism :=
          match u.info.mosaicism with
          | some b => if b then some b else none
          | none => none
        database_entry_version :=
          match u.info.database_entry_version with
          | some s => if s ≠ "" then some (some s) else none
          | none => none } := by
  refine ⟨applyInfoFields_eq gene info, ?_⟩
  rw [addGeneObj, applyInfoFields_eq]

/-!
## Claim C5 — adds are unconditional, duplicates possible
-/

/-- C5: every pending `add` entry contributes its synthesized gene record
to the new version's gene list, with no check against the base version's
gene list — the hypothesis places no restriction on `p.genes`, so the
record is added even when a base gene with the same `hgnc_id` is carried
forward (see the witness, whose output contains `hgnc_id` 3 twice). -/
theorem claim_C5 (now now2 : Nat) (p : Panel) (u : PendingChange)
    (hmem : u ∈ p.pending) (hadd : u.action = "add") :
    addGeneObj u ∈ (apply_pending now now2 p).1.genes := by
  rw [apply_pending_eq]
  apply List.mem_append_left
  exact List.mem_filterMap.2 ⟨u, hmem, by simp [hadd]⟩

def c5Gene : Gene := { hgnc_id := some 3, hgnc_symbol := some (some "C") }

def c5Add : PendingChange := { hgnc_id := 3, action := "add", info := {}, symbol := "C" }

def c5Panel : Panel :=
  { panel_name := "panel1", institute := "cust000", panel_type := "clinical",
    display_name := "Panel 1", version := 1, date := 0,
    genes := [c5Gene], pending := [c5Add] }

theorem claim_C5_witness :
    addGeneObj c5Add ∈ (apply_pending 0 0 c5Panel).1.genes ∧
    ((apply_pending 0 0 c5Panel).1.genes.map fun g => g.hgnc_id) = [some 3, some 3] :=
  ⟨claim_C5 0 0 c5Panel c5Add (by decide) rfl, by decide⟩

/-!
## Claim C6 — empty pending queue
-/

/-- C6: applying an empty pending queue yields a new version whose gene
list equals the base version's list element-for-element in the same
order, with an empty pending queue, and the base document is marked
`is_archived = true`. -/
theorem claim_C6 (now now2 : Nat) (p : Panel) (h : p.pending = []) :
    (apply_pending now now2 p).1.genes = p.genes ∧
    (apply_pending now now2 p).1.pending = [] ∧
    (apply_pending now now2 p).2.is_archived = true := by
  rw [apply_pending_eq]
  refine ⟨?_, rfl, rfl⟩
  rw [h]
  simp only [addedGenes, List.filterMap_nil, List.nil_append]
  exact filterMap_eq_self_of_point carryFn_lastUpdate_nil p.genes

def c6Gene : Gene := { hgnc_id := some 7, hgnc_symbol := some (some "G") }

def c6Panel : Panel :=
  { panel_name := "panel1", institute := "cust000", panel_type := "clinical",
    display_name := "Panel 1", version := 1, date := 0,
    genes := [c6Gene], pending := [] }

theorem claim_C6_witness :
    (apply_pending 0 0 c6Panel).1.genes = c6Panel.genes ∧
    (apply_pending 0 0 c6Panel).1.pending = [] ∧
    (apply_pending 0 0 c6Panel).2.is_archived = true :=
  claim_C6 0 0 c6Panel rfl

/-!
## Claim C7 — version increment
-/

/-- C7: the new version's `version` number is always the base version's
plus exactly 1. -/
theorem claim_C7 (now now2 : Nat) (p : Panel) :
    (apply_pending now now2 p).1.version = p.version + 1 := by
  rw [apply_pending_eq]

/-!
## Claim C8 — `add_pending` validation and append
-/

/-- C8: `add_pending` with an action outside {add, delete, edit} fails
with the invalid-action error and produces no updated panel; with a valid
action it returns the panel with exactly one pending change — recording
`hgnc_id`, the action, the (defaulted) `info` and the gene's symbol —
appended at the end of the `pending` sequence, all other fields (in
particular `version`) unchanged. -/
theorem claim_C8 (p : Panel) (hg : HgncGene) (action : String) (info : Option Info) :
    (action ∉ (["add", "delete", "edit"] : List String) →
      add_pending p hg action info = Except.error ("Invalid action " ++ action)) ∧
    (action ∈ (["add", "delete", "edit"] : List String) →
      add_pending p hg action info =
        Except.ok { p with pending := p.pending ++
          [{ hgnc_id := hg.hgnc_id, action := action, info := info.getD {},
             symbol := hg.hgnc_symbol }] }) := by
  constructor <;> intro h <;> simp [add_pending, h]

def c8Panel : Panel :=
  { panel_name := "panel1", institute := "cust000", panel_type := "clinical",
    display_name := "Panel 1", version := 1, date := 0,
    genes := [], pending := [] }

def c8HgncGene : HgncGene := { hgnc_id := 11, hgnc_symbol := "X" }

theorem claim_C8_witness :
    add_pending c8Panel c8HgncGene "rename" none = Except.error "Invalid action rename" ∧
    add_pending c8Panel c8HgncGene "edit" none =
      Except.ok { c8Panel with pending := c8Panel.pending ++
        [{ hgnc_id := 11, action := "edit", info := {}, symbol := "X" }] } :=
  ⟨(claim_C8 c8Panel c8HgncGene "rename" none).1 (by decide),
   (claim_C8 c8Panel c8HgncGene "edit" none).2 (by decide)⟩

/-!
## The gene-file parser (`scout/parse/panel.py`)

Python strings handled by the parser are embedded as `List Char`, with the
string primitives the source uses (`rstrip`, `strip`, `lower`, `split`,
containment, `isdigit`, `int()`) defined by structural recursion so that
concrete runs reduce inside the kernel.
-/

/-- A Python string, as a list of characters. -/
abbrev PyStr := List Char

/-- Python `str.rstrip()` (with no argument: strips trailing whitespace). -/
def pyRstrip (s : PyStr) : PyStr :=
  (s.reverse.dropWhile Char.isWhitespace).reverse

/-- Python `str.strip()`: strips whitespace on both sides. -/
def pyStrip (s : PyStr) : PyStr :=
  ((s.dropWhile Char.isWhitespace).reverse.dropWhile Char.isWhitespace).reverse

/-- Python `str.lower()` (ASCII case folding suffices for the header
names handled here). -/
def pyLower (s : PyStr) : PyStr :=
  s.map Char.toLower

/-- Python `str.split(sep)` for a one-character separator (the source only
splits on `'\t'`, `';'` and `','`): `"".split(sep) == ['']`, empty pieces
are kept. -/
def pySplit (d : Char) : PyStr → List PyStr
  | [] => [[]]
  | c :: rest =>
      match pySplit d rest with
      | [] => [[c]]
      | h :: t => if c = d then [] :: h :: t else (c :: h) :: t

/-- Python `needle in hay` for strings: substring containment. -/
def pyContainsSub (needle : PyStr) : PyStr → Bool
  | [] => needle.isEmpty
  | c :: rest => needle.isPrefixOf (c :: rest) || pyContainsSub needle rest

/-- Python `str.isdigit()` (restricted to ASCII digits, which is all the
panel files contain). -/
def pyIsDigit (s : PyStr) : Bool :=
  !s.isEmpty && s.all Char.isDigit

/-- Numeric value of a digit string. -/
def digitsVal (s : PyStr) : Nat :=
  s.foldl (fun n c => 10 * n + (c.toNat - '0'.toNat)) 0

/-- Python `int(s)` on the decimal literals appearing in panel files:
surrounding whitespace is ignored, an optional single sign is allowed,
anything else fails (`ValueError`, modelled as `none`). -/
def pyToInt? (s : PyStr) : Option Int :=
  match pyStrip s with
  | '+' :: ds => if pyIsDigit ds then some (digitsVal ds) else none
  | '-' :: ds => if pyIsDigit ds then some (-(digitsVal ds : Int)) else none
  | ds => if pyIsDigit ds then some (digitsVal ds) else none

/-- Lookup in a Python dict built by `dict(zip(header, row))`, represented
as the raw key/value pair list: on duplicate keys the **last** binding
wins, a missing key gives `none`. -/
def dictGet (d : List (PyStr × PyStr)) (k : PyStr) : Option PyStr :=
  ((d.filter fun p => p.1 == k).getLast?).map Prod.snd

/-- First-occurrence deduplication with an explicit seen-accumulator. -/
def dedupFirst : List PyStr → List PyStr → List PyStr
  | [], _ => []
  | a :: l, seen => if a ∈ seen then dedupFirst l seen else a :: dedupFirst l (a :: seen)

/-- `dict(zip(header, row))` itself: keys keep the position of their
first occurrence, the value is the last one bound (Python dict insertion
semantics). -/
def dictOfZip (l : List (PyStr × PyStr)) : List (PyStr × PyStr) :=
  (dedupFirst (l.map Prod.fst) []).map fun k => (k, (dictGet l k).getD [])

/-- `VALID_MODELS = ('AR','AD','MT','XD','XR','X','Y')`. -/
def VALID_MODELS : List PyStr :=
  ["AR".data, "AD".data, "MT".data, "XD".data, "XR".data, "X".data, "Y".data]

/-- The `identifier` a parsed gene is deduplicated by: the integer
`hgnc_id` when truthy (nonzero), otherwise the truthy `hgnc_symbol`
string — Python compares these values inside one set, where an int and a
string are never equal, hence a sum type. -/
inductive Ident where
  | id : Int → Ident
  | sym : PyStr → Ident
  deriving DecidableEq, Repr

/-- The `hgnc_id` alias chain of `parse_gene` (`hgnc_id`, `hgnc_idnumber`,
`hgncid`) with `int()` conversion; a present but non-numeric value raises
(`Invalid hgnc id`), no key at all leaves the id `None`. -/
def parseHgncId (gene_info : List (PyStr × PyStr)) : Except String (Option Int) :=
  let conv : PyStr → Except String (Option Int) := fun v =>
    match pyToInt? v with
    | some n => Except.ok (some n)
    | none => Except.error "Invalid hgnc id"
  match dictGet gene_info "hgnc_id".data with
  | some v => conv v
  | none =>
      match dictGet gene_info "hgnc_idnumber".data with
      | some v => conv v
      | none =>
          match dictGet gene_info "hgncid".data with
          | some v => conv v
          | none => Except.ok none

/-- `parse_gene` (parse/panel.py): builds the gene dictionary from one
row's `gene_info` dict.  The returned pair's second component is the
`identifier` entry, which `parse_genes` pops from the dict before storing
the gene; a `SyntaxError` is modelled as `Except.error`. -/
def parse_gene (gene_info : List (PyStr × PyStr)) : Except String (Gene × Ident) :=
  match parseHgncId gene_info with
  | Except.error e => Except.error e
  | Except.ok hgnc_id =>
      let hgnc_symbol : Option PyStr :=
        match dictGet gene_info "hgnc_symbol".data with
        | some v => some v
        | none =>
            match dictGet gene_info "hgncsymbol".data with
            | some v => some v
            | none => dictGet gene_info "symbol".data
      let symId : Option Ident :=
        match hgnc_symbol with
        | some s => if s ≠ [] then some (Ident.sym s) else none
        | none => none
      let identifier : Option Ident :=
        match hgnc_id with
        | some n => if n ≠ 0 then some (Ident.id n) else symId
        | none => symId
      match identifier with
      | none => Except.error "No gene identifier could be found"
      | some ident =>
          let transcripts : PyStr :=
            (match dictGet gene_info "disease_associated_transcripts".data with
             | some v => some v
             | none =>
                 match dictGet gene_info "disease_associated_transcript".data with
                 | some v => some v
                 | none => dictGet gene_info "transcripts".data).getD []
          let gene_transcripts : List String :=
            (pySplit ',' transcripts).filterMap fun t =>
              if t ≠ [] then some (String.mk (pyStrip t)) else none
          let models : PyStr :=
            (match dictGet gene_info "genetic_disease_models".data with
             | some v => some v
             | none =>
                 match dictGet gene_info "genetic_disease_model".data with
                 | some v => some v
                 | none =>
                     match dictGet gene_info "inheritance_models".data with
                     | some v => some v
                     | none => dictGet gene_info "genetic_inheritance_models".data).getD []
          let gene_models : List String :=
            (pySplit ',' models).filterMap fun m =>
              let s := pyStrip m
              if VALID_MODELS.contains s then some (String.mk s) else none
          let mosaicism : Bool :=
            match dictGet gene_info "mosaicism".data with
            | some v => !v.isEmpty
            | none => false
          let reduced_penetrance : Bool :=
            match dictGet gene_info "reduced_penetrance".data with
            | some v => !v.isEmpty
            | none => false
          let dev : Option String :=
            (dictGet gene_info "database_entry_version".data).map String.mk
          Except.ok
            ({ hgnc_id := hgnc_id
               hgnc_symbol := some (hgnc_symbol.map String.mk)
               transcripts := some gene_transcripts
               inheritance_models := some gene_models
               mosaicism := some mosaicism
               reduced_penetrance := some reduced_penetrance
               database_entry_version := some dev },
             ident)

/-- The per-line work of `parse_genes` that does not depend on the
accumulated genes: strip the line, dispatch on blank / `#`-header /
first-line sniffing, and for a content line build `gene_info` and call
`parse_gene`.  Returns the (possibly updated) header and delimiter plus
the parsed record for a content line that is neither skipped nor empty.
`i` is the `enumerate` index, used for sniffing on the raw first line and
in the malformed-line error. -/
def lineClassify (i : Nat) (header0 : List PyStr) (delim0 : Char) (rawLine : PyStr) :
    Except String (List PyStr × Char × Option (Gene × Ident)) :=
  let line := pyRstrip rawLine
  if line.isEmpty then Except.ok (header0, delim0, none)
  else if line.take 1 = ['#'] then
    if ¬ line.take 2 = ['#', '#'] then
      let d := if line.contains ';' then ';' else delim0
      Except.ok ((pySplit d (line.drop 1)).map pyLower, d, none)
    else
      Except.ok (header0, delim0, none)
  else if i = 0 ∧ (pyContainsSub "hgnc".data line ∨ pyContainsSub "HGNC".data line) then
    let d := if line.contains ';' then ';' else delim0
    Except.ok ((pySplit d line).map pyLower, d, none)
  else
    let d := if i = 0 then (if line.contains ';' then ';' else delim0) else delim0
    let header :=
      if i = 0 then
        if pyIsDigit ((pySplit d line).headD []) then ["hgnc_id".data] else ["hgnc_symbol".data]
      else header0
    let splitted_line := pySplit d line
    let gene_info := dictOfZip (header.zip splitted_line)
    if gene_info.all fun p => p.2.isEmpty then Except.ok (header, d, none)
    else
      match parse_gene gene_info with
      | Except.error _ => Except.error ("Line " ++ toString i ++ " is malformed")
      | Except.ok pr => Except.ok (header, d, some pr)

/-- The loop state of `parse_genes`: accumulated genes (paired with their
popped identifiers), the `hgnc_identifiers` set (a list, used only
through membership), and the current header and delimiter. -/
structure PGState where
  genes : List (Gene × Ident)
  idents : List Ident
  header : List PyStr
  delimiter : Char
  deriving DecidableEq, Repr

def pgInit : PGState :=
  { genes := [], idents := [], header := [], delimiter := '\t' }

/-- One iteration of the `parse_genes` loop: classify the line, then — for
a parsed record — skip it when its identifier was seen before, otherwise
add the identifier to the set and append the gene. -/
def pgLineStep (i : Nat) (st : PGState) (line : PyStr) : Except String PGState :=
  match lineClassify i st.header st.delimiter line with
  | Except.error e => Except.error e
  | Except.ok (hd, d, none) => Except.ok { st with header := hd, delimiter := d }
  | Except.ok (hd, d, some pr) =>
      if pr.2 ∈ st.idents then Except.ok { st with header := hd, delimiter := d }
      else
        Except.ok
          { genes := st.genes ++ [pr], idents := pr.2 :: st.idents,
            header := hd, delimiter := d }

def pgLoop : Nat → PGState → List PyStr → Except String PGState
  | _, st, [] => Except.ok st
  | i, st, l :: ls =>
      match pgLineStep i st l with
      | Except.error e => Except.error e
      | Except.ok st2 => pgLoop (i + 1) st2 ls

/-- `parse_genes` (parse/panel.py) on the file's lines. -/
def parse_genes (gene_lines : List PyStr) : Except String (List Gene) :=
  (pgLoop 0 pgInit gene_lines).map fun st => st.genes.map Prod.fst

/-- Companion definition following the specification's words ("match the
file's encounter order for first occurrences"): the same line-by-line run
**without** the identifier deduplication, collecting every successfully
parsed gene record in file-encounter order.  `parse_genes` is compared
against it below. -/
structure AllState where
  genes : List (Gene × Ident)
  header : List PyStr
  delimiter : Char
  deriving DecidableEq, Repr

def allInit : AllState :=
  { genes := [], header := [], delimiter := '\t' }

def allLineStep (i : Nat) (st : AllState) (line : PyStr) : Except String AllState :=
  match lineClassify i st.header st.delimiter line with
  | Except.error e => Except.error e
  | Except.ok (hd, d, none) => Except.ok { st with header := hd, delimiter := d }
  | Except.ok (hd, d, some pr) =>
      Except.ok { genes := st.genes ++ [pr], header := hd, delimiter := d }

def allLoop : Nat → AllState → List PyStr → Except String AllState
  | _, st, [] => Except.ok st
  | i, st, l :: ls =>
      match allLineStep i st l with
      | Except.error e => Except.error e
      | Except.ok st2 => allLoop (i + 1) st2 ls

/-- First-occurrence deduplication of parsed records by identifier,
relative to a set of already-seen identifiers. -/
def dedupFirstOn : List (Gene × Ident) → List Ident → List (Gene × Ident)
  | [], _ => []
  | p :: l, seen =>
      if p.2 ∈ seen then dedupFirstOn l seen else p :: dedupFirstOn l (p.2 :: seen)

/-- The identifier set after processing a record stream. -/
def seenIdents : List (Gene × Ident) → List Ident → List Ident
  | [], seen => seen
  | p :: l, seen =>
      if p.2 ∈ seen then seenIdents l seen else seenIdents l (p.2 :: seen)

theorem allLoop_genes_prefix (ls : List PyStr) :
    ∀ (i : Nat) (hd : List PyStr) (d : Char) (as0 : List (Gene × Ident)),
    allLoop i ⟨as0, hd, d⟩ ls =
      (allLoop i ⟨[], hd, d⟩ ls).map fun st =>
        ⟨as0 ++ st.genes, st.header, st.delimiter⟩ := by
  induction ls with
  | nil => intro i hd d as0; simp [allLoop, Except.map]
  | cons l ls ih =>
      intro i hd d as0
      cases hc : lineClassify i hd d l with
      | error e => simp [allLoop, allLineStep, hc, Except.map]
      | ok trip =>
          obtain ⟨hd2, d2, opt⟩ := trip
          cases opt with
          | none =>
              simp only [allLoop, allLineStep, hc]
              exact ih (i + 1) hd2 d2 as0
          | some pr =>
              simp only [allLoop, allLineStep, hc, List.nil_append]
              rw [ih (i + 1) hd2 d2 (as0 ++ [pr]), ih (i + 1) hd2 d2 [pr]]
              cases allLoop (i + 1) ⟨[], hd2, d2⟩ ls with
              | error e => rfl
              | ok ast => simp [Except.map]

theorem pgLoop_eq (ls : List PyStr) :
    ∀ (i : Nat) (hd : List PyStr) (d : Char)
      (gs : List (Gene × Ident)) (ids : List Ident),
    pgLoop i ⟨gs, ids, hd, d⟩ ls =
      (allLoop i ⟨[], hd, d⟩ ls).map fun ast =>
        ⟨gs ++ dedupFirstOn ast.genes ids, seenIdents ast.genes ids,
         ast.header, ast.delimiter⟩ := by
  induction ls with
  | nil => intro i hd d gs ids; simp [pgLoop, allLoop, dedupFirstOn, seenIdents, Except.map]
  | cons l ls ih =>
      intro i hd d gs ids
      cases hc : lineClassify i hd d l with
      | error e => simp [pgLoop, allLoop, pgLineStep, allLineStep, hc, Except.map]
      | ok trip =>
          obtain ⟨hd2, d2, opt⟩ := trip
          cases opt with
          | none =>
              simp only [pgLoop, allLoop, pgLineStep, allLineStep, hc]
              exact ih (i + 1) hd2 d2 gs ids
          | some pr =>
              by_cases hmem : pr.2 ∈ ids
              · simp only [pgLoop, allLoop, pgLineStep, allLineStep, hc, hmem, if_pos,
                  List.nil_append]
                rw [ih (i + 1) hd2 d2 gs ids, allLoop_genes_prefix ls (i + 1) hd2 d2 [pr]]
                cases allLoop (i + 1) ⟨[], hd2, d2⟩ ls with
                | error e => rfl
                | ok ast => simp [Except.map, dedupFirstOn, seenIdents, hmem]
              · simp only [pgLoop, allLoop, pgLineStep, allLineStep, hc, hmem, if_false, if_neg,
                  List.nil_append]
                rw [ih (i + 1) hd2 d2 (gs ++ [pr]) (pr.2 :: ids),
                  allLoop_genes_prefix ls (i + 1) hd2 d2 [pr]]
                cases allLoop (i + 1) ⟨[], hd2, d2⟩ ls with
                | error e => rfl
                | ok ast => simp [Except.map, dedupFirstOn, seenIdents, hmem]

theorem dedupFirstOn_nodup :
    ∀ (l : List (Gene × Ident)) (seen : List Ident),
    ((dedupFirstOn l seen).map Prod.snd).Nodup ∧
    ∀ x ∈ (dedupFirstOn l seen).map Prod.snd, x ∉ seen := by
  intro l
  induction l with
  | nil => intro seen; simp [dedupFirstOn]
  | cons p t ih =>
      intro seen
      by_cases hmem : p.2 ∈ seen
      · simp only [dedupFirstOn, hmem, if_pos]
        exact ih seen
      · simp only [dedupFirstOn, hmem, if_false, if_neg, List.map_cons]
        obtain ⟨hnd, hnotin⟩ := ih (p.2 :: seen)
        refine ⟨List.nodup_cons.2 ⟨fun hin => hnotin _ hin (List.mem_cons_self _ _), hnd⟩, ?_⟩
        intro x hx hxseen
        rcases List.mem_cons.1 hx with rfl | hx2
        · exact hmem hxseen
        · exact hnotin x hx2 (List.mem_cons_of_mem _ hxseen)

/-- C9: whenever the `parse_genes` run succeeds, the produced gene records
carry pairwise-distinct identifiers; and relative to the companion run
that collects **every** successfully parsed record in file-encounter
order, the output keeps exactly the first occurrence of each identifier,
in first-occurrence order (`dedupFirstOn`). -/
theorem claim_C9 (lines : List PyStr) (pst : PGState)
    (h : pgLoop 0 pgInit lines = Except.ok pst) :
    (pst.genes.map Prod.snd).Nodup ∧
    parse_genes lines = Except.ok (pst.genes.map Prod.fst) ∧
    ∀ ast, allLoop 0 allInit lines = Except.ok ast →
      pst.genes = dedupFirstOn ast.genes [] := by
  have hmain : pgLoop 0 pgInit lines =
      (allLoop 0 allInit lines).map fun ast =>
        ⟨[] ++ dedupFirstOn ast.genes [], seenIdents ast.genes [],
         ast.header, ast.delimiter⟩ :=
    pgLoop_eq lines 0 [] '\t' [] []
  cases hall : allLoop 0 allInit lines with
  | error e =>
      rw [hall] at hmain
      rw [hmain] at h
      cases h
  | ok ast =>
      rw [hall] at hmain
      rw [hmain] at h
      have hpst : pst =
          ⟨[] ++ dedupFirstOn ast.genes [], seenIdents ast.genes [],
           ast.header, ast.delimiter⟩ := by
        cases h
        rfl
      refine ⟨?_, ?_, ?_⟩
      · rw [hpst]
        simpa using (dedupFirstOn_nodup ast.genes []).1
      · rw [parse_genes, hmain, hpst]
        rfl
      · intro ast2 hall2
        have hast : ast2 = ast := by
          cases hall2
          rfl
        rw [hast, hpst]
        simp

def c9Lines : List PyStr :=
  ["#hgnc_id;hgnc_symbol".data, "1;A".data, "2;B".data, "1;AA".data]

def c9GeneA : Gene :=
  { hgnc_id := some 1, hgnc_symbol := some (some "A"), transcripts := some [],
    inheritance_models := some [], reduced_penetrance := some false,
    mosaicism := some false, database_entry_version := some none }

def c9GeneB : Gene :=
  { hgnc_id := some 2, hgnc_symbol := some (some "B"), transcripts := some [],
    inheritance_models := some [], reduced_penetrance := some false,
    mosaicism := some false, database_entry_version := some none }

def c9Final : PGState :=
  { genes := [(c9GeneA, Ident.id 1), (c9GeneB, Ident.id 2)],
    idents := [Ident.id 2, Ident.id 1],
    header := ["hgnc_id".data, "hgnc_symbol".data],
    delimiter := ';' }

theorem claim_C9_witness :
    (c9Final.genes.map Prod.snd).Nodup ∧
    parse_genes c9Lines = Except.ok (c9Final.genes.map Prod.fst) ∧
    ∀ ast, allLoop 0 allInit c9Lines = Except.ok ast →
      c9Final.genes = dedupFirstOn ast.genes [] :=
  claim_C9 c9Lines c9Final (by rfl)

/-!
## Claim C10 — `symbol` vs `hgnc_symbol` keys and `clinical_symbols`
-/

theorem applyInfoFields_symbol_keys (g : Gene) (i : Info) :
    (applyInfoFields g i).symbol = g.symbol ∧
    (applyInfoFields g i).hgnc_symbol = g.hgnc_symbol := by
  rw [applyInfoFields_eq]
  exact ⟨rfl, rfl⟩

/-- C10: a gene record synthesized for a pending `add` stores its label
under the `symbol` key and has no `hgnc_symbol` key; a record produced by
the parser always has the `hgnc_symbol` key and never a `symbol` key; and
`clinical_symbols` reads exactly the `symbol` key — a string appears in
its result precisely when some gene of the given panels has that string
under `symbol`, so parser-produced records only ever contribute the null
group key. -/
theorem claim_C10 :
    (∀ u : PendingChange,
      (addGeneObj u).symbol = some u.symbol ∧ (addGeneObj u).hgnc_symbol = none) ∧
    (∀ (d : List (PyStr × PyStr)) (g : Gene) (ident : Ident),
      parse_gene d = Except.ok (g, ident) →
        (∃ v, g.hgnc_symbol = some v) ∧ g.symbol = none) ∧
    (∀ (panels : List Panel) (s : String),
      some s ∈ clinical_symbols panels ↔
        ∃ g ∈ panels.flatMap fun p => p.genes, g.symbol = some s) := by
  refine ⟨?_, ?_, ?_⟩
  · intro u
    have h := applyInfoFields_symbol_keys
      { hgnc_id := some u.hgnc_id, symbol := some u.symbol } u.info
    exact ⟨h.1, h.2⟩
  · intro d g ident h
    cases hid : parseHgncId d with
    | error e =>
        simp only [parse_gene, hid] at h
        cases h
    | ok hgnc_id =>
        simp only [parse_gene, hid] at h
        split at h
        · cases h
        · cases h
          exact ⟨⟨_, rfl⟩, rfl⟩
  · intro panels s
    simp [clinical_symbols, List.mem_dedup, List.mem_map, eq_comm]

def c10Add : PendingChange := { hgnc_id := 3, action := "add", info := {}, symbol := "C" }

def c10Info : List (PyStr × PyStr) := [("hgnc_symbol".data, "A".data)]

def c10ParsedGene : Gene :=
  { hgnc_id := none, hgnc_symbol := some (some "A"), transcripts := some [],
    inheritance_models := some [], reduced_penetrance := some false,
    mosaicism := some false, database_entry_version := some none }

def c10Panel : Panel :=
  { panel_name := "panel1", institute := "cust000", panel_type := "clinical",
    display_name := "Panel 1", version := 1, date := 0,
    genes := [c10ParsedGene, addGeneObj c10Add], pending := [] }

theorem claim_C10_witness :
    ((addGeneObj c10Add).symbol = some "C" ∧ (addGeneObj c10Add).hgnc_symbol = none) ∧
    ((∃ v, c10ParsedGene.hgnc_symbol = some v) ∧ c10ParsedGene.symbol = none) ∧
    some "C" ∈ clinical_symbols [c10Panel] :=
  ⟨claim_C10.1 c10Add,
   (claim_C10.2.1 c10Info c10ParsedGene (Ident.sym "A".data) (by rfl)),
   (claim_C10.2.2 [c10Panel] "C").mpr ⟨addGeneObj c10Add, by decide, by decide⟩⟩
